import Mathlib

/-!
# Verification of the MottoAgents core against its specification

Shallow embedding of the MottoAgents core (role lifecycle, memory log,
BDI deliberation, bounded ordered executor) and proofs of the spec's
claims about it.

Source files embedded:
- `mottoagents/roles/role_bank/engineer.py` (`gather_ordered_k`, `Engineer`)
- `mottoagents/roles/role.py` (`Role`, `RoleContext`)
- `mottoagents/roles/bdi_agent.py` (`BDIAgent`, `Belief`, `Desire`, `Intention`)
- `mottoagents/roles/motivation_agent.py` (`MotivationAgent`)

The `Memory`, `Message` and `Environment` classes are imported by the
sources from modules that are not part of the repository snapshot; they
are modelled from the specification (§3, §4.1, §4.2) where needed and
marked as such.
-/

namespace MottoAgents

/-! ## Bounded Ordered Executor (`gather_ordered_k`)

The Python function drives a set of coroutines with at most `k` in
flight.  The jobs are independent, so job `i` deterministically produces
the value `res i`; the only nondeterminism is *which* in-flight tasks the
event loop reports as completed at each `asyncio.wait` call.  That choice
is modelled by an adversarial scheduler `sched : List Nat → List Nat`
(the set of in-flight indices reported complete by a
`FIRST_COMPLETED` wait) and `order : List Nat → List Nat` (the iteration
order over the final `ALL_COMPLETED` wait's result set). -/

/-- Executor state: `tasks` is the `OrderedDict` of in-flight task
indices in creation order, `queue` is the `done_queue` contents as
`(index, result)` pairs, and `creationCounts` instruments the run,
recording the number of in-flight tasks at the moment each
`asyncio.create_task` call is made. -/
structure ExecState (α : Type) where
  tasks : List Nat
  queue : List (Nat × α)
  creationCounts : List Nat
deriving Repr

/-- One `asyncio.wait(..., return_when=FIRST_COMPLETED)` step: the tasks
in `sched s.tasks` complete, are popped from `tasks`, and their
`(index, result)` pairs are put on the done queue. -/
def waitFirstCompleted (res : Nat → α) (sched : List Nat → List Nat)
    (s : ExecState α) : ExecState α :=
  let done := sched s.tasks
  { s with
    tasks := s.tasks.filter (fun j => !(done.contains j))
    queue := s.queue ++ done.map (fun j => (j, res j)) }

/-- One iteration of the admission loop of `gather_ordered_k`
(engineer.py lines 39–46): if `k` or more tasks are in flight, wait for
at least one completion; then create the task for coroutine `i`. -/
def admitJob (res : Nat → α) (k : Nat) (sched : List Nat → List Nat)
    (s : ExecState α) (i : Nat) : ExecState α :=
  let s' := if k ≤ s.tasks.length then waitFirstCompleted res sched s else s
  { s' with
    tasks := s'.tasks ++ [i]
    creationCounts := s'.creationCounts ++ [s'.tasks.length] }

/-- The admission loop over all `n` coroutines. -/
def runAdmit (res : Nat → α) (n k : Nat) (sched : List Nat → List Nat) :
    ExecState α :=
  (List.range n).foldl (admitJob res k sched) ⟨[], [], []⟩

/-- The final drain (engineer.py lines 48–52): all remaining in-flight
tasks complete; the event loop reports them in the arbitrary order
`order s.tasks`. -/
def drainAll (res : Nat → α) (order : List Nat → List Nat)
    (s : ExecState α) : ExecState α :=
  { s with
    tasks := []
    queue := s.queue ++ (order s.tasks).map (fun j => (j, res j)) }

/-- Emptying the done queue into the result list (engineer.py
lines 54–56): `results[index] = result`, starting from `[None] * n`. -/
def fillResults (n : Nat) (queue : List (Nat × α)) : List (Option α) :=
  queue.foldl (fun acc p => acc.set p.1 (some p.2)) (List.replicate n none)

/-- `gather_ordered_k` from engineer.py, for jobs whose `i`-th result is
`res i`, under scheduler choices `sched` and `order`. -/
def gather_ordered_k (res : Nat → α) (n k : Nat)
    (sched order : List Nat → List Nat) : List (Option α) :=
  fillResults n (drainAll res order (runAdmit res n k sched)).queue

/-- A scheduler choice is admissible when the set of tasks it reports
complete is a duplicate-free subset of the in-flight set. -/
def SchedSound (sched : List Nat → List Nat) : Prop :=
  ∀ l : List Nat, (sched l).Nodup ∧ ∀ j ∈ sched l, j ∈ l

/-- `asyncio.wait` on a nonempty task set returns at least one
completed task. -/
def SchedProgress (sched : List Nat → List Nat) : Prop :=
  ∀ l : List Nat, l ≠ [] → sched l ≠ []

/-- The final `ALL_COMPLETED` wait reports exactly the remaining tasks,
in some order. -/
def OrderSound (order : List Nat → List Nat) : Prop :=
  ∀ l : List Nat, (order l).Perm l

/-- Running the same jobs strictly sequentially. -/
def runSequential (res : Nat → α) (n : Nat) : List α :=
  (List.range n).map res

/-- Invariant of the admission loop after admitting coroutines
`0, …, i-1`: every admitted index is either in flight or queued with its
own job's result, exactly once. -/
def AdmitInv (res : Nat → α) (i : Nat) (s : ExecState α) : Prop :=
  (s.tasks ++ s.queue.map Prod.fst).Perm (List.range i) ∧
  ∀ p ∈ s.queue, p.2 = res p.1

lemma filter_not_contains_append_perm (d l : List Nat) (hd : d.Nodup)
    (hl : l.Nodup) (hsub : ∀ j ∈ d, j ∈ l) :
    ((l.filter (fun j => !(d.contains j))) ++ d).Perm l := by
  have h2 : (l.filter (fun j => d.contains j)).Perm d := by
    rw [List.perm_ext_iff_of_nodup (hl.filter _) hd]
    intro a
    simp only [List.mem_filter, List.elem_iff]
    exact ⟨fun h => h.2, fun h => ⟨hsub a h, h⟩⟩
  have h1 := List.filter_append_perm (fun j => d.contains j) l
  have h3 : ((l.filter (fun j => !(d.contains j))) ++ d).Perm
      ((l.filter (fun j => !(d.contains j))) ++ l.filter (fun j => d.contains j)) :=
    List.Perm.append_left _ h2.symm
  exact h3.trans ((List.perm_append_comm).trans h1)

lemma admitJob_inv {res : Nat → α} {k : Nat} {sched : List Nat → List Nat}
    (hs : SchedSound sched) {i : Nat} {s : ExecState α}
    (hinv : AdmitInv res i s) :
    AdmitInv res (i + 1) (admitJob res k sched s i) := by
  obtain ⟨hperm, hval⟩ := hinv
  have htasks_nd : s.tasks.Nodup :=
    ((hperm.nodup_iff).mpr (List.nodup_range i)).of_append_left
  by_cases hk : k ≤ s.tasks.length
  · obtain ⟨hnd, hsub⟩ := hs s.tasks
    have hfilter := filter_not_contains_append_perm (sched s.tasks) s.tasks
      hnd htasks_nd hsub
    constructor
    · simp only [admitJob, waitFirstCompleted, if_pos hk, List.map_append,
        List.map_map]
      have hmap : List.map (Prod.fst ∘ fun j => (j, res j)) (sched s.tasks)
          = sched s.tasks := List.map_id _
      rw [hmap, List.range_succ]
      rw [← Multiset.coe_eq_coe] at hfilter hperm ⊢
      simp only [← Multiset.coe_add] at hfilter hperm ⊢
      rw [← hperm, ← hfilter]
      abel
    · intro p hp
      simp only [admitJob, waitFirstCompleted, if_pos hk] at hp
      rcases List.mem_append.mp hp with h | h
      · exact hval p h
      · obtain ⟨j, _, rfl⟩ := List.mem_map.mp h
        rfl
  · constructor
    · simp only [admitJob, if_neg hk]
      rw [List.range_succ]
      rw [← Multiset.coe_eq_coe] at hperm ⊢
      simp only [← Multiset.coe_add] at hperm ⊢
      rw [← hperm]
      abel
    · intro p hp
      simp only [admitJob, if_neg hk] at hp
      exact hval p hp

lemma runAdmit_inv (res : Nat → α) (n k : Nat) (sched : List Nat → List Nat)
    (hs : SchedSound sched) :
    AdmitInv res n (runAdmit res n k sched) := by
  induction n with
  | zero => exact ⟨by simp [runAdmit], by simp [runAdmit]⟩
  | succ m ih =>
    have : runAdmit res (m + 1) k sched
        = admitJob res k sched (runAdmit res m k sched) m := by
      simp [runAdmit, List.range_succ]
    rw [this]
    exact admitJob_inv hs ih

lemma fillLoop_length (q : List (Nat × α)) (init : List (Option α)) :
    (q.foldl (fun acc p => acc.set p.1 (some p.2)) init).length = init.length := by
  induction q generalizing init with
  | nil => rfl
  | cons p rest ih => rw [List.foldl_cons, ih, List.length_set]

lemma fillLoop_not_mem (q : List (Nat × α)) (init : List (Option α)) (m : Nat)
    (hm : m ∉ q.map Prod.fst) :
    (q.foldl (fun acc p => acc.set p.1 (some p.2)) init)[m]? = init[m]? := by
  induction q generalizing init with
  | nil => rfl
  | cons p rest ih =>
    simp only [List.map_cons, List.mem_cons] at hm
    push_neg at hm
    rw [List.foldl_cons, ih _ hm.2, List.getElem?_set_ne hm.1.symm]

lemma fillLoop_mem (q : List (Nat × α)) (init : List (Option α)) (m : Nat) (v : α)
    (hnd : (q.map Prod.fst).Nodup) (hmem : (m, v) ∈ q) (hlen : m < init.length) :
    (q.foldl (fun acc p => acc.set p.1 (some p.2)) init)[m]? = some (some v) := by
  induction q generalizing init with
  | nil => cases hmem
  | cons p rest ih =>
    simp only [List.map_cons, List.nodup_cons] at hnd
    rcases List.mem_cons.mp hmem with h | h
    · subst h
      rw [List.foldl_cons, fillLoop_not_mem rest _ m hnd.1]
      exact List.getElem?_set_self hlen
    · rw [List.foldl_cons]
      exact ih (init.set p.1 (some p.2)) hnd.2 h
        (by rw [List.length_set]; exact hlen)

lemma fillResults_eq (res : Nat → α) (n : Nat) (q : List (Nat × α))
    (hperm : (q.map Prod.fst).Perm (List.range n))
    (hval : ∀ p ∈ q, p.2 = res p.1) :
    fillResults n q = (List.range n).map (fun i => some (res i)) := by
  have hnd : (q.map Prod.fst).Nodup := hperm.nodup_iff.mpr (List.nodup_range n)
  apply List.ext_getElem?
  intro m
  by_cases hm : m < n
  · have hmem : m ∈ q.map Prod.fst := hperm.mem_iff.mpr (List.mem_range.mpr hm)
    obtain ⟨p, hp, hfst⟩ := List.mem_map.mp hmem
    obtain ⟨a, b⟩ := p
    have ha : a = m := hfst
    subst ha
    have hb : b = res a := hval (a, b) hp
    subst hb
    rw [fillResults, fillLoop_mem q _ a (res a) hnd hp
      (by rw [List.length_replicate]; exact hm)]
    rw [List.getElem?_map, List.getElem?_range hm, Option.map_some']
  · push_neg at hm
    have h1 : (fillResults n q).length = n := by
      rw [fillResults, fillLoop_length, List.length_replicate]
    rw [List.getElem?_eq_none (by rw [h1]; exact hm),
      List.getElem?_eq_none (by rw [List.length_map, List.length_range]; exact hm)]

/-- C1: for every list of `n` independent jobs (job `i` producing
`res i`) and every concurrency bound `k ≥ 1`, `gather_ordered_k`
returns a list of length `n` whose `i`-th entry is the result of input
coroutine `i`, equal to the list obtained by running the jobs strictly
sequentially — regardless of the order in which the event loop reports
completions (any sound `sched`/`order` choice). -/
theorem gather_ordered_k_eq_sequential {α : Type} (res : Nat → α) (n k : Nat)
    (sched order : List Nat → List Nat) (_hk : 1 ≤ k)
    (hsched : SchedSound sched) (horder : OrderSound order) :
    gather_ordered_k res n k sched order = (runSequential res n).map some := by
  obtain ⟨hperm, hval⟩ := runAdmit_inv res n k sched hsched
  set s := runAdmit res n k sched with hs
  have hq : (drainAll res order s).queue
      = s.queue ++ (order s.tasks).map (fun j => (j, res j)) := rfl
  have hmapid : List.map Prod.fst ((order s.tasks).map fun j => (j, res j))
      = order s.tasks := by
    rw [List.map_map]; exact List.map_id _
  have hpf : ((drainAll res order s).queue.map Prod.fst).Perm (List.range n) := by
    rw [hq, List.map_append, hmapid]
    have h1 : (s.queue.map Prod.fst ++ order s.tasks).Perm
        (s.queue.map Prod.fst ++ s.tasks) :=
      List.Perm.append_left _ (horder s.tasks)
    exact (h1.trans List.perm_append_comm).trans hperm
  have hv : ∀ p ∈ (drainAll res order s).queue, p.2 = res p.1 := by
    intro p hp
    rw [hq] at hp
    rcases List.mem_append.mp hp with h | h
    · exact hval p h
    · obtain ⟨j, _, rfl⟩ := List.mem_map.mp h
      rfl
  show fillResults n (drainAll res order s).queue = _
  rw [fillResults_eq res n _ hpf hv, runSequential, List.map_map]
  rfl

lemma take_one_nodup (l : List Nat) : (l.take 1).Nodup := by
  cases l with
  | nil => simp
  | cons a t => simp

/-- Invariant used for the bounded-concurrency claim: never more than
`k` tasks in flight, and every `create_task` so far happened with the
in-flight count strictly below `k`. -/
def BoundedInv (k : Nat) (s : ExecState α) : Prop :=
  s.tasks.length ≤ k ∧ ∀ c ∈ s.creationCounts, c < k

lemma admitJob_bounded {res : Nat → α} {k : Nat} {sched : List Nat → List Nat}
    (hk : 1 ≤ k) (hs : SchedSound sched) (hp : SchedProgress sched)
    {s : ExecState α} {i : Nat} (hinv : BoundedInv k s) :
    BoundedInv k (admitJob res k sched s i) := by
  obtain ⟨hlen, hcnt⟩ := hinv
  by_cases hfull : k ≤ s.tasks.length
  · have hlen_eq : s.tasks.length = k := Nat.le_antisymm hlen hfull
    have hne : s.tasks ≠ [] := by
      intro h
      rw [h] at hlen_eq
      exact absurd hlen_eq.symm (Nat.ne_of_gt hk)
    have hdone_ne : sched s.tasks ≠ [] := hp s.tasks hne
    obtain ⟨j, hj⟩ := List.exists_mem_of_ne_nil _ hdone_ne
    have hjt : j ∈ s.tasks := (hs s.tasks).2 j hj
    have hdrop : (s.tasks.filter
        (fun x => !((sched s.tasks).contains x))).length < s.tasks.length := by
      apply List.length_filter_lt_length_iff_exists.mpr
      exact ⟨j, hjt, by simp [List.elem_iff, hj]⟩
    constructor
    · simp only [admitJob, waitFirstCompleted, if_pos hfull, List.length_append,
        List.length_singleton]
      omega
    · intro c hc
      simp only [admitJob, waitFirstCompleted, if_pos hfull] at hc
      rcases List.mem_append.mp hc with h | h
      · exact hcnt c h
      · rw [List.mem_singleton.mp h]
        omega
  · constructor
    · simp only [admitJob, if_neg hfull, List.length_append, List.length_singleton]
      omega
    · intro c hc
      simp only [admitJob, if_neg hfull] at hc
      rcases List.mem_append.mp hc with h | h
      · exact hcnt c h
      · rw [List.mem_singleton.mp h]
        omega

/-- C2: during any execution of `gather_ordered_k` with bound `k ≥ 1`,
every `asyncio.create_task` call happens with strictly fewer than `k`
tasks in flight (so never more than `k` are simultaneously
started-but-not-completed), and the drain phase creates no task. -/
theorem gather_ordered_k_bounded_concurrency {α : Type} (res : Nat → α)
    (n k : Nat) (sched order : List Nat → List Nat) (hk : 1 ≤ k)
    (hsched : SchedSound sched) (hprog : SchedProgress sched) :
    (∀ c ∈ (drainAll res order (runAdmit res n k sched)).creationCounts, c < k) ∧
    (runAdmit res n k sched).tasks.length ≤ k := by
  have main : BoundedInv k (runAdmit res n k sched) := by
    induction n with
    | zero => exact ⟨by simp [runAdmit], by simp [runAdmit]⟩
    | succ m ih =>
      have : runAdmit res (m + 1) k sched
          = admitJob res k sched (runAdmit res m k sched) m := by
        simp [runAdmit, List.range_succ]
      rw [this]
      exact admitJob_bounded hk hsched hprog ih
  exact ⟨main.2, main.1⟩

/-- Witness for C2 at a concrete input: three jobs, bound 2,
oldest-first scheduler. -/
theorem gather_ordered_k_bounded_concurrency_witness :
    (∀ c ∈ (drainAll (fun i => i * i) id
        (runAdmit (fun i => i * i) 3 2 (fun l => l.take 1))).creationCounts,
      c < 2) ∧
    (runAdmit (fun i => i * i) 3 2 (fun l => l.take 1)).tasks.length ≤ 2 :=
  gather_ordered_k_bounded_concurrency (fun i => i * i) 3 2 (fun l => l.take 1) id
    (by norm_num)
    (fun l => ⟨take_one_nodup l, fun _ hj => List.mem_of_mem_take hj⟩)
    (fun l hl => by
      cases l with
      | nil => exact absurd rfl hl
      | cons a t => simp)

/-- Witness for C1 at a concrete input: three jobs, bound 2, a scheduler
that always completes the oldest in-flight task first. -/
theorem gather_ordered_k_eq_sequential_witness :
    gather_ordered_k (fun i => i * i) 3 2 (fun l => l.take 1) id
      = (runSequential (fun i => i * i) 3).map some :=
  gather_ordered_k_eq_sequential (fun i => i * i) 3 2 (fun l => l.take 1) id
    (by norm_num)
    (fun l => ⟨take_one_nodup l, fun _ hj => List.mem_of_mem_take hj⟩)
    (fun l => List.Perm.refl l)

/-! ## Messages, memory log, environment bus and roles

`Message`, `Memory` and `Environment` are imported by the sources from
`mottoagents.system.schema`, `mottoagents.system.memory` and
`mottoagents.environment`, modules that are not part of the repository
snapshot; they are modelled from the specification (§3, §4.1, §4.2). -/

/-- The action kinds appearing in the claims and in the embedded roles
(`cause_by` values). -/
inductive ActionKind
  | chat
  | taskAssignment
  | writeTasks
  | writeDesign
  | writeCode
  | writeCodeReview
deriving DecidableEq, Repr

/-- Modelled from the spec: `Message` (§3) from the missing
`mottoagents.system.schema` — textual content, optional structured
task-list payload, producing role, causing action-kind, optional
recipient, timestamp.  Dedup equality is full structural equivalence
(§3's fallback rule: content + producer + timestamp). -/
structure Message where
  content : String
  instructTaskList : Option (List String) := none
  role : String := ""
  causeBy : ActionKind := ActionKind.chat
  sendTo : String := ""
  timestamp : Nat := 0
deriving DecidableEq, Repr

/-- Modelled from the spec: the `Memory` log (§4.1) from the missing
`mottoagents.system.memory` — an ordered, de-duplicating store of
messages. -/
structure Memory where
  storage : List Message
deriving DecidableEq, Repr

/-- §4.1 `all()` / `Memory.get`: the full ordered history. -/
def Memory.get (m : Memory) : List Message := m.storage

/-- Modelled from the spec: §4.1 `record` / `Memory.add` — no-op if an
equal message is already present, otherwise append. -/
def Memory.add (m : Memory) (msg : Message) : Memory :=
  if msg ∈ m.storage then m else ⟨m.storage ++ [msg]⟩

/-- §4.1 `by_action_kinds` / `Memory.get_by_actions`: the ordered
subsequence of messages caused by one of `kinds`. -/
def Memory.get_by_actions (m : Memory) (kinds : List ActionKind) : List Message :=
  m.storage.filter (fun msg => kinds.contains msg.causeBy)

/-- Modelled from the spec: `Memory.remember(observed)` (used at role.py
line 194; §4.3 step 2 — "pull unseen bus messages matching the watch
set, record each into the role's own log (skipping already-recorded
ones)") records the watched observations and returns the genuinely new
ones. -/
def Memory.remember (m : Memory) (observed : List Message) :
    Memory × List Message :=
  (observed.foldl Memory.add m, observed.filter (fun msg => msg ∉ m.storage))

/-- Modelled from the spec: the `Environment` bus (§4.2) — `publish`
appends to the bus's own log. -/
structure Environment where
  memory : Memory
deriving DecidableEq, Repr

def Environment.publish_message (e : Environment) (msg : Message) :
    Environment :=
  ⟨e.memory.add msg⟩

/-- The parts of `Role`/`RoleContext` state the claims concern (role.py
lines 74–110): the private memory log, the watch set, and the
Engineer's `todos` list (engineer.py line 88). -/
structure RoleState where
  memory : Memory
  watch : List ActionKind := []
  todos : List String := []
deriving DecidableEq, Repr

/-- `RoleContext.important_memory` (role.py lines 102–105). -/
def RoleState.important_memory (s : RoleState) : List Message :=
  s.memory.get_by_actions s.watch

/-- `Role.recv` (role.py lines 217–223): add the message to history
unless an equal one is already present. -/
def Role.recv (s : RoleState) (msg : Message) : RoleState :=
  if msg ∈ s.memory.get then s
  else { s with memory := s.memory.add msg }

/-- `Engineer.parse_tasks` (engineer.py lines 91–103): the task list
from the structured payload when present, otherwise the
`CodeParser.parse_file_list` text extraction — an excluded collaborator
(spec §6), passed in as the pure function `parseFileList`. -/
def Engineer.parse_tasks (parseFileList : String → List String)
    (msg : Message) : List String :=
  match msg.instructTaskList with
  | some l => l
  | none => parseFileList msg.content

/-- `Engineer.recv` (engineer.py lines 162–165): add to memory, then if
the message is important (watched), reparse the todo list. -/
def Engineer.recv (parseFileList : String → List String) (s : RoleState)
    (msg : Message) : RoleState :=
  if msg ∈ (RoleState.important_memory { s with memory := s.memory.add msg }) then
    { s with memory := s.memory.add msg,
             todos := Engineer.parse_tasks parseFileList msg }
  else { s with memory := s.memory.add msg }

/-- `Role._observe` (role.py lines 186–202): nothing happens without an
environment; otherwise the watched bus messages are remembered, *every*
bus message is passed to `recv`, and the number of genuinely new watched
messages is returned. -/
def Role.observe (s : RoleState) (env : Option Environment) :
    RoleState × Nat :=
  match env with
  | none => (s, 0)
  | some e =>
    let env_msgs := e.memory.get
    let observed := e.memory.get_by_actions s.watch
    let remembered := s.memory.remember observed
    let s' := env_msgs.foldl Role.recv { s with memory := remembered.1 }
    (s', remembered.2.length)

/-- `Role.run` (role.py lines 232–248), with the act phase (the selected
action's external `run` capability, spec §6) supplied as the fallible
function `act`.  With explicit input the message is received and the
role reacts; without input the role observes and suspends (returning no
result) when there is no news; a successful response is published to
the bus. -/
def Role.run {Err : Type} (act : RoleState → Except Err Message)
    (s : RoleState) (env : Option Environment) (input : Option Message) :
    Except Err (RoleState × Option Environment × Option Message) :=
  match input with
  | some msg =>
    match act (Role.recv s msg) with
    | .error e => .error e
    | .ok rsp => .ok (Role.recv s msg,
        env.map (fun e => e.publish_message rsp), some rsp)
  | none =>
    if (Role.observe s env).2 = 0 then
      .ok ((Role.observe s env).1, env, none)
    else
      match act (Role.observe s env).1 with
      | .error e => .error e
      | .ok rsp => .ok ((Role.observe s env).1,
          env.map (fun e => e.publish_message rsp), some rsp)

/-- The context string built by `_act_sp_precision` (engineer.py
lines 227–231): the contents of the design/task/code history, joined by
newlines. -/
def Engineer.contextStr (s : RoleState) : String :=
  String.intercalate "\n"
    ((s.memory.get_by_actions
      [ActionKind.writeDesign, ActionKind.writeTasks, ActionKind.writeCode]).map
      (fun m => m.content))

/-- The code-review sub-step of `_act_sp_precision` (engineer.py
lines 238–248): with review enabled, a successful review replaces the
code; a review failure is caught and logged, keeping the original
code. -/
def Engineer.reviewed {Err : Type}
    (review : String → String → String → Except Err String)
    (useCodeReview : Bool) (ctx code todo : String) : String :=
  if useCodeReview then
    match review ctx code todo with
    | .ok rewritten => rewritten
    | .error _ => code
  else code

/-- The per-todo message recorded by `_act_sp_precision` (engineer.py
line 250): `Message(content=code, role=self.profile, cause_by=WriteCode)`
appended to the role's memory. -/
def Engineer.codeMessage (code : String) : Message :=
  { content := code, role := "Engineer", causeBy := ActionKind.writeCode }

def Engineer.recordCode (s : RoleState) (code : String) : RoleState :=
  { s with memory := s.memory.add (Engineer.codeMessage code) }

/-- `Engineer._act_sp_precision` (engineer.py lines 217–263), with the
`WriteCode` and `WriteCodeReview` LLM actions as external fallible
capabilities (spec §6) and the workspace file write (excluded
collaborator) omitted.  Per todo: build the context from design/task/
code history, write code (a `WriteCode` failure propagates), apply the
review sub-step, and record the code message.  Returns the final state
and the per-todo codes. -/
def Engineer.act_sp_precision {Err : Type}
    (writeCode : String → String → Except Err String)
    (review : String → String → String → Except Err String)
    (useCodeReview : Bool) :
    RoleState → List String → Except Err (RoleState × List String)
  | s, [] => .ok (s, [])
  | s, todo :: rest =>
    match writeCode (Engineer.contextStr s) todo with
    | .error e => .error e
    | .ok code =>
      match Engineer.act_sp_precision writeCode review useCodeReview
        (Engineer.recordCode s
          (Engineer.reviewed review useCodeReview
            (Engineer.contextStr s) code todo)) rest with
      | .error e => .error e
      | .ok (s'', codes) => .ok (s'',
          Engineer.reviewed review useCodeReview
            (Engineer.contextStr s) code todo :: codes)

lemma Memory.add_of_mem {m : Memory} {msg : Message} (h : msg ∈ m.storage) :
    m.add msg = m := by
  unfold Memory.add
  rw [if_pos h]

lemma Memory.mem_add (m : Memory) (msg msg' : Message) :
    msg' ∈ (m.add msg).storage ↔ msg' ∈ m.storage ∨ msg' = msg := by
  unfold Memory.add
  split
  · next h =>
    exact ⟨Or.inl, fun h' => h'.elim id (fun he => he ▸ h)⟩
  · simp [List.mem_append]

lemma Memory.add_nodup {m : Memory} (h : m.storage.Nodup) (msg : Message) :
    ((m.add msg).storage).Nodup := by
  unfold Memory.add
  split
  · exact h
  · next hmem => simp [List.nodup_append, h, hmem]

lemma Role.recv_eq (s : RoleState) (msg : Message) :
    Role.recv s msg = { s with memory := s.memory.add msg } := by
  unfold Role.recv
  split
  · next h =>
    rw [Memory.add_of_mem h]
  · rfl

lemma foldl_recv_eq (msgs : List Message) (s : RoleState) :
    msgs.foldl Role.recv s
      = { s with memory := msgs.foldl Memory.add s.memory } := by
  induction msgs generalizing s with
  | nil => rfl
  | cons a t ih =>
    rw [List.foldl_cons, List.foldl_cons, Role.recv_eq, ih]

lemma mem_foldl_add (msgs : List Message) (m : Memory) (msg : Message) :
    msg ∈ (msgs.foldl Memory.add m).storage ↔ msg ∈ m.storage ∨ msg ∈ msgs := by
  induction msgs generalizing m with
  | nil => simp
  | cons a t ih =>
    rw [List.foldl_cons, ih, Memory.mem_add]
    simp [List.mem_cons, or_assoc]

lemma nodup_foldl_add (msgs : List Message) (m : Memory)
    (h : m.storage.Nodup) : ((msgs.foldl Memory.add m).storage).Nodup := by
  induction msgs generalizing m with
  | nil => exact h
  | cons a t ih => exact ih _ (Memory.add_nodup h a)

/-- C3: receiving a message equal (under the dedup rule) to one already
in the log leaves the log unchanged — same length, same elements, same
order — both for the base `Role.recv` and for the overriding
`Engineer.recv`; and `recv` preserves the invariant that the log never
contains two equal messages. -/
theorem recv_duplicate_leaves_log_unchanged
    (parseFileList : String → List String) (s : RoleState) (msg : Message)
    (hdup : msg ∈ s.memory.get) (hnd : s.memory.get.Nodup) :
    Role.recv s msg = s ∧
    (Engineer.recv parseFileList s msg).memory = s.memory ∧
    ∀ msg' : Message, ((Role.recv s msg').memory.get).Nodup ∧
      ((Engineer.recv parseFileList s msg').memory.get).Nodup := by
  have hadd : s.memory.add msg = s.memory := Memory.add_of_mem hdup
  refine ⟨?_, ?_, ?_⟩
  · rw [Role.recv_eq, hadd]
  · unfold Engineer.recv
    split <;> simp [hadd]
  · intro msg'
    constructor
    · rw [Role.recv_eq]
      exact Memory.add_nodup hnd msg'
    · unfold Engineer.recv
      split <;> exact Memory.add_nodup hnd msg'

/-- Witness for C3: a log holding one message receives it again. -/
theorem recv_duplicate_leaves_log_unchanged_witness :
    Role.recv { memory := ⟨[{ content := "m" }]⟩ } { content := "m" }
      = { memory := ⟨[{ content := "m" }]⟩ } ∧
    (Engineer.recv (fun _ => []) { memory := ⟨[{ content := "m" }]⟩ }
      { content := "m" }).memory = (⟨[{ content := "m" }]⟩ : Memory) ∧
    ∀ msg' : Message,
      ((Role.recv { memory := ⟨[{ content := "m" }]⟩ } msg').memory.get).Nodup ∧
      ((Engineer.recv (fun _ => []) { memory := ⟨[{ content := "m" }]⟩ }
        msg').memory.get).Nodup :=
  recv_duplicate_leaves_log_unchanged (fun _ => [])
    { memory := ⟨[{ content := "m" }]⟩ } { content := "m" }
    (by simp [Memory.get]) (by simp [Memory.get])

/-- Scenario for the watch-filtering claim (spec §8 example): A and C
caused by Chat, B by TaskAssignment, watch set {TaskAssignment}. -/
def msgA : Message := { content := "A", role := "r1", causeBy := ActionKind.chat }

def msgB : Message :=
  { content := "B", role := "r2", causeBy := ActionKind.taskAssignment }

def msgC : Message := { content := "C", role := "r3", causeBy := ActionKind.chat }

def scenarioEnv : Environment := ⟨⟨[msgA, msgB, msgC]⟩⟩

def scenarioRole : RoleState :=
  { memory := ⟨[]⟩, watch := [ActionKind.taskAssignment] }

/-- C4 counterexample: in the spec's own scenario the role records the
Chat-caused message A even though Chat is not in its watch set —
`_observe` passes *every* bus message to `recv`, not only watched
ones. -/
theorem observe_records_unwatched_message :
    msgA ∈ ((Role.observe scenarioRole (some scenarioEnv)).1.memory.get) ∧
    ¬ (ActionKind.chat ∈ scenarioRole.watch) ∧
    msgA.causeBy = ActionKind.chat := by
  decide

/-- C4 amended: an observing role records *every* bus message not
already recorded (watched ones first, keeping the log duplicate-free),
not only the watched ones; the by-action-kind query for the watched
kinds still returns exactly the watched bus messages — `[B]` on the
spec's scenario. -/
theorem observe_records_all_and_watch_query
    (s : RoleState) (e : Environment) (hnd : s.memory.get.Nodup) :
    (∀ msg : Message, msg ∈ ((Role.observe s (some e)).1.memory.get) ↔
        (msg ∈ s.memory.get ∨ msg ∈ e.memory.get)) ∧
    ((Role.observe s (some e)).1.memory.get).Nodup ∧
    (Role.observe scenarioRole (some scenarioEnv)).1.important_memory
      = [msgB] := by
  have hobs : (Role.observe s (some e)).1
      = e.memory.get.foldl Role.recv
          { s with memory := ((e.memory.get_by_actions s.watch).foldl Memory.add s.memory) } := rfl
  refine ⟨?_, ?_, by decide⟩
  · intro msg
    rw [hobs, foldl_recv_eq]
    show msg ∈ (e.memory.get.foldl Memory.add _).storage ↔ _
    rw [mem_foldl_add, mem_foldl_add]
    constructor
    · rintro ((h | h) | h)
      · exact Or.inl h
      · exact Or.inr (List.mem_of_mem_filter h)
      · exact Or.inr h
    · rintro (h | h)
      · exact Or.inl (Or.inl h)
      · exact Or.inr h
  · rw [hobs, foldl_recv_eq]
    exact nodup_foldl_add _ _ (nodup_foldl_add _ _ hnd)

/-- Witness for the amended C4 on the spec's own scenario. -/
theorem observe_records_all_and_watch_query_witness :
    (∀ msg : Message,
        msg ∈ ((Role.observe scenarioRole (some scenarioEnv)).1.memory.get) ↔
        (msg ∈ scenarioRole.memory.get ∨ msg ∈ scenarioEnv.memory.get)) ∧
    ((Role.observe scenarioRole (some scenarioEnv)).1.memory.get).Nodup ∧
    (Role.observe scenarioRole (some scenarioEnv)).1.important_memory
      = [msgB] :=
  observe_records_all_and_watch_query scenarioRole scenarioEnv
    (by simp [scenarioRole, Memory.get])

/-- C5: with no explicit input and zero newly observed messages
(including the case of a role attached to no bus), `run` succeeds,
returns no response, and leaves the bus unchanged — the no-new-work
outcome is a normal return, distinguishable from failure. -/
theorem run_no_news_suspends {Err : Type}
    (act : RoleState → Except Err Message) (s : RoleState)
    (env : Option Environment) (h : (Role.observe s env).2 = 0) :
    Role.run act s env none
      = Except.ok ((Role.observe s env).1, env, none) := by
  unfold Role.run
  rw [if_pos h]

/-- Witness for C5: a role with no bus, whose act capability would fail
if it were ever consulted, still suspends successfully. -/
theorem run_no_news_suspends_witness :
    Role.run (fun _ => Except.error ()) { memory := ⟨[]⟩ } none none
      = Except.ok
          ((Role.observe { memory := ⟨[]⟩ } none).1, none, none) :=
  run_no_news_suspends (fun _ => Except.error ()) { memory := ⟨[]⟩ } none rfl

/-- C6: a failure of the act phase propagates out of `run` (the run
produces no response and publishes nothing — its result is the error
itself); and the only catch-and-log is the code-review refinement:
when every review attempt fails, `_act_sp_precision` with code review
enabled produces exactly the results of the no-review run, keeping each
originally written code in use. -/
theorem act_failure_propagates {Err : Type}
    (act : RoleState → Except Err Message) (s : RoleState)
    (env : Option Environment) (msg : Message) (e : Err)
    (writeCode : String → String → Except Err String)
    (review : String → String → String → Except Err String)
    (todos : List String)
    (hact : act (Role.recv s msg) = Except.error e)
    (hreview : ∀ a b c, review a b c = Except.error e) :
    Role.run act s env (some msg) = Except.error e ∧
    Engineer.act_sp_precision writeCode review true s todos
      = Engineer.act_sp_precision writeCode review false s todos := by
  have hrev : ∀ ctx code todo', Engineer.reviewed review true ctx code todo'
      = Engineer.reviewed review false ctx code todo' := by
    intro ctx code todo'
    simp [Engineer.reviewed, hreview]
  constructor
  · simp only [Role.run, hact]
  · clear hact
    induction todos generalizing s with
    | nil => rfl
    | cons todo rest ih =>
      unfold Engineer.act_sp_precision
      cases writeCode (Engineer.contextStr s) todo with
      | error e' => rfl
      | ok code =>
        simp only [hrev, ih]

/-- Witness for C6: a failing act propagates its error through `run`,
and with an always-failing reviewer the review-enabled Engineer act
equals the review-free one. -/
theorem act_failure_propagates_witness :
    Role.run (fun _ => Except.error "boom") { memory := ⟨[]⟩ } none
      (some { content := "m" }) = Except.error "boom" ∧
    Engineer.act_sp_precision (fun _ t => Except.ok ("code of " ++ t))
      (fun _ _ _ => Except.error "boom") true { memory := ⟨[]⟩ }
      ["a.py", "b.py"]
      = Engineer.act_sp_precision (fun _ t => Except.ok ("code of " ++ t))
        (fun _ _ _ => Except.error "boom") false { memory := ⟨[]⟩ }
        ["a.py", "b.py"] :=
  act_failure_propagates (fun _ => Except.error "boom") { memory := ⟨[]⟩ }
    none { content := "m" } "boom" (fun _ t => Except.ok ("code of " ++ t))
    (fun _ _ _ => Except.error "boom") ["a.py", "b.py"] rfl
    (fun _ _ _ => rfl)

/-! ## BDI agent (bdi_agent.py, motivation_agent.py)

Python `dict`s preserve insertion order; they are modelled as
insertion-ordered association lists with unique keys.  Python `float`
scores are modelled as `ℚ`. -/

/-- The free-form belief data dict written by `update_beliefs`
(bdi_agent.py line 53): `{"source": message.role, "content":
message.content}`. -/
structure BeliefData where
  source : String
  content : String
deriving DecidableEq, Repr

/-- `Belief` (bdi_agent.py lines 7–12). -/
structure Belief where
  name : String
  confidence : ℚ := 1
  timestamp : Nat
  data : BeliefData
deriving DecidableEq, Repr

/-- `Desire` (bdi_agent.py lines 14–19); `interventionType = some t`
models the `MotivationDesire` subclass with its `intervention_type`
field (motivation_agent.py lines 17–21), `none` a plain `Desire`. -/
structure Desire where
  name : String
  priority : ℚ
  conditions : List String
  successCriteria : List String
  interventionType : Option String := none
deriving DecidableEq, Repr

instance : Inhabited Desire :=
  ⟨{ name := "", priority := 0, conditions := [], successCriteria := [] }⟩

/-- `Intention` (bdi_agent.py lines 21–26). -/
structure Intention where
  desire : String
  actions : List String
  status : String := "pending"
  progress : ℚ := 0
deriving DecidableEq, Repr

/-- `BDIContext` (bdi_agent.py lines 28–33).  `current_intention` holds
the `Intention` object assigned at bdi_agent.py line 94. -/
structure BDIState where
  beliefs : List (String × Belief) := []
  desires : List (String × Desire) := []
  intentions : List (String × Intention) := []
  currentIntention : Option Intention := none
deriving DecidableEq, Repr

/-- Python `dict` item assignment `d[k] = v` on an insertion-ordered
association list: replace in place if the key exists, else append. -/
def dictInsert (l : List (String × β)) (k : String) (v : β) :
    List (String × β) :=
  if l.any (fun p => p.1 == k) then
    l.map (fun p => if p.1 == k then (k, v) else p)
  else l ++ [(k, v)]

/-- `BDIAgent.update_beliefs` (bdi_agent.py lines 42–55): a message with
falsy (empty) content is ignored; otherwise a belief named
`belief_{len(beliefs)}` with confidence 1.0 and data referencing the
message's producer and content is stored. -/
def BDIAgent.newBelief (s : BDIState) (msg : Message) : Belief :=
  { name := "belief_" ++ toString s.beliefs.length,
    confidence := 1,
    timestamp := msg.timestamp,
    data := { source := msg.role, content := msg.content } }

def BDIAgent.update_beliefs (s : BDIState) (msg : Message) : BDIState :=
  if msg.content = "" then s
  else
    { s with beliefs := dictInsert s.beliefs (BDIAgent.newBelief s msg).name (BDIAgent.newBelief s msg) }

/-- Python `max(iterable, key=f)`: later elements replace the current
maximum only on a strictly greater key, so the first element attaining
the maximum wins. -/
def pyMax (key : String → ℚ) : List String → String
  | [] => ""
  | d :: ds => ds.foldl (fun best x => if key best < key x then x else best) d

/-- The priority lookup `self._rc.desires[d].priority`
(bdi_agent.py line 85). -/
def BDIState.desirePriority (s : BDIState) (name : String) : ℚ :=
  ((List.lookup name s.desires).getD default).priority

/-- The available desires of `select_intention` (bdi_agent.py
lines 77–78): desire names not referenced by an intention with status
`active`.  Python iterates a `set` here, whose order is unspecified;
the model iterates in desire-insertion order. -/
def BDIState.availableDesires (s : BDIState) : List String :=
  (s.desires.map (fun p => p.1)).filter (fun d =>
    !(((s.intentions.map (fun p => p.2)).filterMap (fun i =>
        if i.status = "active" then some i.desire else none)).contains d))

/-- `BDIAgent._generate_action_plan` (bdi_agent.py lines 96–100): one
`check_…` step per precondition plus a trailing
`execute_main_action`. -/
def BDIAgent.generate_action_plan (s : BDIState) (name : String) :
    List String :=
  (((List.lookup name s.desires).getD default).conditions.map
    (fun c => "check_" ++ c)) ++ ["execute_main_action"]

/-- The `Intention` created by `select_intention` (bdi_agent.py
lines 89–92): status defaults to `pending`, progress to 0. -/
def BDIAgent.newIntention (s : BDIState) : Intention :=
  { desire := pyMax s.desirePriority s.availableDesires,
    actions := BDIAgent.generate_action_plan s
      (pyMax s.desirePriority s.availableDesires) }

/-- `BDIAgent.select_intention` (bdi_agent.py lines 71–94): no-op
without desires or without available desires; otherwise pick the
available desire of maximal priority, create a pending intention with a
generated plan under the key `intention_{len(intentions)}`, and make it
current. -/
def BDIAgent.select_intention (s : BDIState) : BDIState :=
  if s.desires = [] then s
  else if s.availableDesires = [] then s
  else
    { s with
      intentions := dictInsert s.intentions ("intention_" ++ toString s.intentions.length) (BDIAgent.newIntention s),
      currentIntention := some (BDIAgent.newIntention s) }

/-- `MotivationAgent._generate_action_plan` (motivation_agent.py
lines 112–143): base plan for a non-motivation desire; for a
`MotivationDesire`, a fixed five-step plan for each of the three
recognised intervention types and a fixed three-step fallback
otherwise. -/
def MotivationAgent.generate_action_plan (s : BDIState) (name : String) :
    List String :=
  match ((List.lookup name s.desires).getD default).interventionType with
  | none => BDIAgent.generate_action_plan s name
  | some t =>
    if t = "energy_boost" then
      ["assess_current_energy", "identify_energy_drains",
       "suggest_energy_management", "provide_encouragement",
       "check_progress"]
    else if t = "focus_enhancement" then
      ["assess_distractions", "set_clear_goals", "break_down_tasks",
       "establish_focus_routine", "monitor_progress"]
    else if t = "mood_improvement" then
      ["acknowledge_feelings", "identify_mood_triggers",
       "suggest_positive_actions", "provide_support",
       "check_emotional_state"]
    else ["assess_situation", "provide_motivation", "check_response"]

lemma pyMax_foldl_spec (key : String → ℚ) (l : List String) (b : String) :
    (l.foldl (fun best x => if key best < key x then x else best) b = b ∨
     l.foldl (fun best x => if key best < key x then x else best) b ∈ l) ∧
    key b ≤ key (l.foldl (fun best x => if key best < key x then x else best) b) ∧
    ∀ x ∈ l, key x ≤ key (l.foldl (fun best x => if key best < key x then x else best) b) := by
  induction l generalizing b with
  | nil => exact ⟨Or.inl rfl, le_refl _, by simp⟩
  | cons a t ih =>
    simp only [List.foldl_cons]
    obtain ⟨h1, h2, h3⟩ := ih (if key b < key a then a else b)
    refine ⟨?_, ?_, ?_⟩
    · rcases h1 with h | h
      · rw [h]
        by_cases hba : key b < key a
        · rw [if_pos hba]; exact Or.inr (List.mem_cons_self a t)
        · rw [if_neg hba]; exact Or.inl rfl
      · exact Or.inr (List.mem_cons_of_mem a h)
    · refine le_trans ?_ h2
      by_cases hba : key b < key a
      · rw [if_pos hba]; exact le_of_lt hba
      · rw [if_neg hba]
    · intro x hx
      rcases List.mem_cons.mp hx with rfl | hx
      · refine le_trans ?_ h2
        by_cases hba : key b < key x
        · rw [if_pos hba]
        · rw [if_neg hba]
          exact le_of_not_lt hba
      · exact h3 x hx

lemma pyMax_mem (key : String → ℚ) (l : List String) (hl : l ≠ []) :
    pyMax key l ∈ l := by
  cases l with
  | nil => exact absurd rfl hl
  | cons a t =>
    show t.foldl (fun best x => if key best < key x then x else best) a ∈ a :: t
    rcases (pyMax_foldl_spec key t a).1 with h | h
    · rw [h]; exact List.mem_cons_self a t
    · exact List.mem_cons_of_mem a h

lemma pyMax_le (key : String → ℚ) (l : List String) (hl : l ≠ []) :
    ∀ x ∈ l, key x ≤ key (pyMax key l) := by
  cases l with
  | nil => exact absurd rfl hl
  | cons a t =>
    intro x hx
    rcases List.mem_cons.mp hx with rfl | hx
    · exact (pyMax_foldl_spec key t x).2.1
    · exact (pyMax_foldl_spec key t a).2.2 x hx

lemma dictInsert_fresh {β : Type} (l : List (String × β)) (k : String) (v : β)
    (h : ∀ p ∈ l, p.1 ≠ k) : dictInsert l k v = l ++ [(k, v)] := by
  unfold dictInsert
  rw [if_neg (by simp only [List.any_eq_true, beq_iff_eq]; push_neg; exact h)]

lemma availableDesires_nil_of_desires_nil (s : BDIState)
    (h : s.desires = []) : s.availableDesires = [] := by
  unfold BDIState.availableDesires
  rw [h]
  rfl

/-- The spec's example state for intention selection: desires
{d1: priority 0.9, d2: priority 0.95}, no intentions. -/
def exampleState : BDIState :=
  { desires :=
      [("d1", { name := "d1", priority := mkRat 9 10, conditions := ["c"],
                successCriteria := [] }),
       ("d2", { name := "d2", priority := mkRat 19 20, conditions := ["c"],
                successCriteria := [] })] }

/-- C7: `select_intention` on a state with an available desire (one not
referenced by an active intention) chooses an available desire of
greatest priority, appends a new pending intention holding the
generated plan, and makes it current; with no available desires (which
includes having no desires at all) the state is unchanged.  On the
spec's example it chooses d2. -/
theorem select_intention_spec (s : BDIState)
    (hne : s.availableDesires ≠ [])
    (hfresh : ∀ p ∈ s.intentions,
      p.1 ≠ "intention_" ++ toString s.intentions.length) :
    (pyMax s.desirePriority s.availableDesires ∈ s.availableDesires ∧
     (∀ d ∈ s.availableDesires, s.desirePriority d
        ≤ s.desirePriority (pyMax s.desirePriority s.availableDesires)) ∧
     BDIAgent.select_intention s = { s with
        intentions := s.intentions ++
          [("intention_" ++ toString s.intentions.length, BDIAgent.newIntention s)],
        currentIntention := some (BDIAgent.newIntention s) } ∧
     (BDIAgent.newIntention s).status = "pending" ∧
     (BDIAgent.newIntention s).desire
        = pyMax s.desirePriority s.availableDesires ∧
     (BDIAgent.newIntention s).actions
        = BDIAgent.generate_action_plan s
            (pyMax s.desirePriority s.availableDesires)) ∧
    (∀ s' : BDIState, s'.availableDesires = [] →
      BDIAgent.select_intention s' = s') ∧
    (BDIAgent.select_intention exampleState).currentIntention
      = some { desire := "d2", actions := ["check_c", "execute_main_action"],
               status := "pending", progress := 0 } := by
  have hds : s.desires ≠ [] := by
    intro h
    exact hne (availableDesires_nil_of_desires_nil s h)
  refine ⟨⟨pyMax_mem _ _ hne, pyMax_le _ _ hne, ?_, rfl, rfl, rfl⟩, ?_, by decide⟩
  · unfold BDIAgent.select_intention
    rw [if_neg hds, if_neg hne, dictInsert_fresh _ _ _ hfresh]
  · intro s' h
    unfold BDIAgent.select_intention
    by_cases hd : s'.desires = []
    · rw [if_pos hd]
    · rw [if_neg hd, if_pos h]

/-- Witness for C7 on the spec's example state. -/
theorem select_intention_spec_witness :
    (pyMax exampleState.desirePriority exampleState.availableDesires
        ∈ exampleState.availableDesires ∧
     (∀ d ∈ exampleState.availableDesires, exampleState.desirePriority d
        ≤ exampleState.desirePriority
            (pyMax exampleState.desirePriority exampleState.availableDesires)) ∧
     BDIAgent.select_intention exampleState = { exampleState with
        intentions := exampleState.intentions ++
          [("intention_" ++ toString exampleState.intentions.length,
            BDIAgent.newIntention exampleState)],
        currentIntention := some (BDIAgent.newIntention exampleState) } ∧
     (BDIAgent.newIntention exampleState).status = "pending" ∧
     (BDIAgent.newIntention exampleState).desire
        = pyMax exampleState.desirePriority exampleState.availableDesires ∧
     (BDIAgent.newIntention exampleState).actions
        = BDIAgent.generate_action_plan exampleState
            (pyMax exampleState.desirePriority exampleState.availableDesires)) ∧
    (∀ s' : BDIState, s'.availableDesires = [] →
      BDIAgent.select_intention s' = s') ∧
    (BDIAgent.select_intention exampleState).currentIntention
      = some { desire := "d2", actions := ["check_c", "execute_main_action"],
               status := "pending", progress := 0 } :=
  select_intention_spec exampleState (by decide) (by decide)

/-- A state with two available desires tied at the greatest
priority. -/
def tieState : BDIState :=
  { desires :=
      [("t1", { name := "t1", priority := mkRat 9 10, conditions := [],
                successCriteria := [] }),
       ("t2", { name := "t2", priority := mkRat 9 10, conditions := [],
                successCriteria := [] })] }

/-- C8: intention selection is deterministic under ties — for any state
holding two distinct available desires of equal greatest priority,
running `select_intention` on the identical state yields the identical
result and the identical chosen desire (the embedded selection is a
pure function of the state; Python's `max` keeps the first maximal
element of its iteration order). -/
theorem select_intention_tie_deterministic (s₁ s₂ : BDIState)
    (d₁ d₂ : String) (heq : s₁ = s₂)
    (h₁ : d₁ ∈ s₁.availableDesires) (h₂ : d₂ ∈ s₁.availableDesires)
    (hne : d₁ ≠ d₂)
    (htie : s₁.desirePriority d₁ = s₁.desirePriority d₂)
    (hmax : ∀ d ∈ s₁.availableDesires,
      s₁.desirePriority d ≤ s₁.desirePriority d₁) :
    BDIAgent.select_intention s₁ = BDIAgent.select_intention s₂ ∧
    pyMax s₁.desirePriority s₁.availableDesires
      = pyMax s₂.desirePriority s₂.availableDesires := by
  subst heq
  exact ⟨rfl, rfl⟩

/-- Witness for C8 on a concrete tie state. -/
theorem select_intention_tie_deterministic_witness :
    BDIAgent.select_intention tieState = BDIAgent.select_intention tieState ∧
    pyMax tieState.desirePriority tieState.availableDesires
      = pyMax tieState.desirePriority tieState.availableDesires :=
  select_intention_tie_deterministic tieState tieState "t1" "t2" rfl
    (by decide) (by decide) (by decide) (by decide) (by decide)

/-- A `MotivationDesire` carrying the default intervention type
`general`. -/
def generalDesireState : BDIState :=
  { desires :=
      [("g", { name := "g", priority := mkRat 1 2, conditions := ["c1", "c2"],
               successCriteria := [], interventionType := some "general" })] }

/-- C9 counterexample: for a motivation desire with the default
intervention type `general`, the motivation plan is the three-step
fallback — not a fixed 5-step plan as the claim states. -/
theorem motivation_plan_not_five_steps :
    MotivationAgent.generate_action_plan generalDesireState "g"
      = ["assess_situation", "provide_motivation", "check_response"] ∧
    (MotivationAgent.generate_action_plan generalDesireState "g").length
      ≠ 5 := by
  decide

/-- C9 amended: the base plan is one `check_…` step per precondition
plus `execute_main_action` (length n+1); the motivation specialization
returns, for each of the three recognised intervention types, the
corresponding fixed five-step plan determined solely by that type, a
fixed three-step fallback for any other motivation desire, and the base
plan for a non-motivation desire. -/
theorem generate_action_plan_spec (s : BDIState) (name : String)
    (d : Desire) (hlookup : List.lookup name s.desires = some d) :
    (BDIAgent.generate_action_plan s name
      = d.conditions.map (fun c => "check_" ++ c) ++ ["execute_main_action"] ∧
     (BDIAgent.generate_action_plan s name).length
      = d.conditions.length + 1) ∧
    (d.interventionType = some "energy_boost" →
      MotivationAgent.generate_action_plan s name
        = ["assess_current_energy", "identify_energy_drains",
           "suggest_energy_management", "provide_encouragement",
           "check_progress"]) ∧
    (d.interventionType = some "focus_enhancement" →
      MotivationAgent.generate_action_plan s name
        = ["assess_distractions", "set_clear_goals", "break_down_tasks",
           "establish_focus_routine", "monitor_progress"]) ∧
    (d.interventionType = some "mood_improvement" →
      MotivationAgent.generate_action_plan s name
        = ["acknowledge_feelings", "identify_mood_triggers",
           "suggest_positive_actions", "provide_support",
           "check_emotional_state"]) ∧
    (∀ t, d.interventionType = some t → t ≠ "energy_boost" →
      t ≠ "focus_enhancement" → t ≠ "mood_improvement" →
      MotivationAgent.generate_action_plan s name
        = ["assess_situation", "provide_motivation", "check_response"]) ∧
    (d.interventionType = none →
      MotivationAgent.generate_action_plan s name
        = BDIAgent.generate_action_plan s name) := by
  refine ⟨⟨?_, ?_⟩, ?_, ?_, ?_, ?_, ?_⟩
  · unfold BDIAgent.generate_action_plan
    rw [hlookup, Option.getD_some]
  · unfold BDIAgent.generate_action_plan
    rw [hlookup, Option.getD_some]
    simp
  · intro h
    unfold MotivationAgent.generate_action_plan
    rw [hlookup, Option.getD_some, h]
    rfl
  · intro h
    unfold MotivationAgent.generate_action_plan
    rw [hlookup, Option.getD_some, h]
    rfl
  · intro h
    unfold MotivationAgent.generate_action_plan
    rw [hlookup, Option.getD_some, h]
    rfl
  · intro t h ht1 ht2 ht3
    unfold MotivationAgent.generate_action_plan
    rw [hlookup, Option.getD_some, h]
    simp only [if_neg ht1, if_neg ht2, if_neg ht3]
  · intro h
    unfold MotivationAgent.generate_action_plan
    rw [hlookup, Option.getD_some, h]

/-- Witness for the amended C9 at the `general`-type motivation
desire. -/
theorem generate_action_plan_spec_witness :
    (BDIAgent.generate_action_plan generalDesireState "g"
      = ["c1", "c2"].map (fun c => "check_" ++ c) ++ ["execute_main_action"] ∧
     (BDIAgent.generate_action_plan generalDesireState "g").length = 2 + 1) ∧
    ((some "general" : Option String) = some "energy_boost" →
      MotivationAgent.generate_action_plan generalDesireState "g"
        = ["assess_current_energy", "identify_energy_drains",
           "suggest_energy_management", "provide_encouragement",
           "check_progress"]) ∧
    ((some "general" : Option String) = some "focus_enhancement" →
      MotivationAgent.generate_action_plan generalDesireState "g"
        = ["assess_distractions", "set_clear_goals", "break_down_tasks",
           "establish_focus_routine", "monitor_progress"]) ∧
    ((some "general" : Option String) = some "mood_improvement" →
      MotivationAgent.generate_action_plan generalDesireState "g"
        = ["acknowledge_feelings", "identify_mood_triggers",
           "suggest_positive_actions", "provide_support",
           "check_emotional_state"]) ∧
    (∀ t, (some "general" : Option String) = some t → t ≠ "energy_boost" →
      t ≠ "focus_enhancement" → t ≠ "mood_improvement" →
      MotivationAgent.generate_action_plan generalDesireState "g"
        = ["assess_situation", "provide_motivation", "check_response"]) ∧
    ((some "general" : Option String) = none →
      MotivationAgent.generate_action_plan generalDesireState "g"
        = BDIAgent.generate_action_plan generalDesireState "g") :=
  generate_action_plan_spec generalDesireState "g"
    { name := "g", priority := mkRat 1 2, conditions := ["c1", "c2"],
      successCriteria := [], interventionType := some "general" } (by decide)

/-- C10: `update_beliefs` on a message with empty content leaves the
whole BDI state unchanged; on non-empty content exactly one new belief
is appended — confidence 1.0, data referencing the message's producer
and content — no existing belief is modified or removed (the generated
name `belief_{len}` is fresh, as the hypothesis records for reachable
states), and desires, intentions and the current intention are
untouched. -/
theorem update_beliefs_spec (s : BDIState) (msg : Message)
    (hfresh : ∀ p ∈ s.beliefs,
      p.1 ≠ "belief_" ++ toString s.beliefs.length) :
    (msg.content = "" → BDIAgent.update_beliefs s msg = s) ∧
    (msg.content ≠ "" →
      BDIAgent.update_beliefs s msg = { s with
        beliefs := s.beliefs ++
          [("belief_" ++ toString s.beliefs.length, BDIAgent.newBelief s msg)] } ∧
      (BDIAgent.newBelief s msg).confidence = 1 ∧
      (BDIAgent.newBelief s msg).data
        = { source := msg.role, content := msg.content }) := by
  constructor
  · intro h
    unfold BDIAgent.update_beliefs
    rw [if_pos h]
  · intro h
    refine ⟨?_, rfl, rfl⟩
    unfold BDIAgent.update_beliefs
    rw [if_neg h,
      show (BDIAgent.newBelief s msg).name
        = "belief_" ++ toString s.beliefs.length from rfl,
      dictInsert_fresh _ _ _ hfresh]

/-- Witness for C10: one non-empty message appended to an empty belief
base. -/
theorem update_beliefs_spec_witness :
    (({ content := "hello", role := "user" } : Message).content = "" →
      BDIAgent.update_beliefs {} { content := "hello", role := "user" } = {}) ∧
    (({ content := "hello", role := "user" } : Message).content ≠ "" →
      BDIAgent.update_beliefs {} { content := "hello", role := "user" }
        = { ({} : BDIState) with
            beliefs := ({} : BDIState).beliefs ++
              [("belief_" ++ toString ({} : BDIState).beliefs.length,
                BDIAgent.newBelief {} { content := "hello", role := "user" })] } ∧
      (BDIAgent.newBelief {} { content := "hello", role := "user" }).confidence
        = 1 ∧
      (BDIAgent.newBelief {} { content := "hello", role := "user" }).data
        = { source := ({ content := "hello", role := "user" } : Message).role,
            content := ({ content := "hello", role := "user" } : Message).content }) :=
  update_beliefs_spec {} { content := "hello", role := "user" } (by decide)

end MottoAgents
